import Mathlib

/-!
# Verification of scEmacs editing-substrate specification claims

A shallow embedding, in Lean 4, of the parts of the scEmacs editor
(src/sc_Editor.c, src/sc_Main.c) that the specification claims talk about:

* UTF-8 byte stepping (`ED_BufferGetUTF8Len`, `ED_BufferCIsAlpha`),
* the gap-buffer reallocation policy (`ED_BufferPlaceGap`),
* incremental-search matching (`ED_ISCheckMatch`, `ED_ISMatchForward`,
  `ED_ISMatchBackward`) and the case-sensitivity flag,
* the numeric-multiplier sub-parser of the command dispatcher
  (`ED_FrameCommandMatch`),
* the kill ring (`ED_KillRingAdd` and friends) and `ED_CmdDelNextWord`,
* cross-pane position updates (`ED_PaneUpdateOtherPanes`),
* `ED_CmdDelPrevChar` boundary behaviour,
* the undo log (`ED_BufferAddUndoBlock`, `ED_BufferUndo`, `ED_CmdUndo`)
  and the query-replace replace-all loop (`ED_QREPReplace`,
  `ED_QREPHandleChars` case `!`),
* the command-line file-opening loop of `main`.

Buffers are modelled as `List Char`, one list element per byte (the C code
works on bytes; all multi-byte UTF-8 issues enter only through the byte
classification functions, which are embedded over `Nat` byte values).
Memory management (slab sizes, gap physical layout, reallocation addresses)
is abstracted to the logical content that the C invariants guarantee;
every such abstraction is noted at the definition it concerns.
-/

namespace ScEmacs

/-! ## Bytes: UTF-8 length and word characters -/

/-- `ED_BufferGetUTF8Len` (sc_Editor.c:6502).  The argument is the byte value
after the `(Uns8)` cast, so a `Nat`; the C comparisons are exactly these. -/
def getUTF8Len (c : Nat) : Nat :=
  if c ≤ 127 then 1
  else if 192 ≤ c ∧ c < 224 then 2
  else if 224 ≤ c ∧ c < 240 then 3
  else if 240 ≤ c ∧ c < 248 then 4
  else 1

/-- `ED_BufferCIsAlpha` (sc_Editor.c:6522) on the `(Uns8)` byte value:
digits, ASCII letters and every byte ≥ 128 (all UTF-8 bytes) are "alpha". -/
def cIsAlpha (c : Nat) : Bool :=
  if c < 48 then false
  else if c < 58 then true
  else if c < 65 then false
  else if c < 91 then true
  else if c < 97 then false
  else if c < 123 then true
  else if c < 128 then false
  else true

/-- Byte value of the list element at `pos` (buffer bytes are modelled as
`Char`s; positions past the end read as byte 0, which the C code never does
on the paths embedded here). -/
def byteAt (buf : List Char) (pos : Nat) : Nat :=
  ((buf.getD pos ⟨0, by decide⟩).toNat)

/-- `ED_BUFFERISMIDUTF8` (sc_Editor.c:938): UTF-8 continuation byte. -/
def isMidUTF8 (c : Nat) : Bool := c / 64 = 2

/-- One forward UTF-8 step from `pos`: advance by the length of the lead
byte at `pos` (`ED_BufferPosToPtr` + `ED_BufferGetUTF8Len` as used by all
forward traversals). -/
def stepForwardPos (buf : List Char) (pos : Nat) : Nat :=
  pos + getUTF8Len (byteAt buf pos)

/-! ## Gap buffer: `ED_BufferPlaceGap` -/

/-- `ED_GAPEXTRAEXPAND` (sc_Editor.c:321). -/
def gapExtraExpand : Nat := 512

/-- The gap buffer, at the logical level: the live text before the gap, the
gap size in bytes, and the live text after the gap.  The physical byte
array is `pre ++ (gap junk bytes) ++ suf`; capacity is its total length. -/
structure GapBuffer where
  pre : List Char
  gapLen : Nat
  suf : List Char
deriving Repr, DecidableEq

/-- Logical text length `L = C − (gap_end − gap_start)`. -/
def GapBuffer.textLen (b : GapBuffer) : Nat := b.pre.length + b.suf.length

/-- Capacity `C = BufEndP − BufStartP`. -/
def GapBuffer.capacity (b : GapBuffer) : Nat :=
  b.pre.length + b.gapLen + b.suf.length

/-- The text as a gap-less sequence. -/
def GapBuffer.text (b : GapBuffer) : List Char := b.pre ++ b.suf

/-- `ED_BufferPlaceGap` (sc_Editor.c:6425).  Moves the gap to `offset` with
at least `len` free bytes.  `Len < 0` is clamped to 0.  If the old gap is
too small, the buffer is reallocated with `NewGapLen = Len + 512` and
`NewMemLen = oldCapacity + (NewGapLen − OldGapLen)`; otherwise the gap is
only moved.  The three-phase `memmove` choreography only rearranges the
physical bytes; its logical effect is exactly: text split at `offset`, gap
of the stated size in between. -/
def placeGap (b : GapBuffer) (offset : Nat) (len : Int) : GapBuffer :=
  let l := len.toNat
  if b.gapLen < l then
    { pre := b.text.take offset, gapLen := l + gapExtraExpand, suf := b.text.drop offset }
  else
    { pre := b.text.take offset, gapLen := b.gapLen, suf := b.text.drop offset }

/-- Modelled from the spec: the capacity the specification's expansion
policy predicts, "new capacity = current text length + max(min_free,
extra_expand)" (spec.md §4.1).  For comparison with `placeGap`. -/
def specExpandedCapacity (textLen minFree : Nat) : Nat :=
  textLen + max minFree gapExtraExpand

/-! ## Incremental search: matching -/

/-- One character comparison of `ED_ISCheckMatch`'s inner loop
(sc_Editor.c:10717-10722): equal bytes match; otherwise, if case-sensitive,
fail; otherwise match exactly when the buffer byte is an ASCII uppercase
letter whose lowercase form equals the pattern byte.  (In the C code bytes
≥ 0x80 are negative `char`s, hence `< 'A'`, so they fail the fold test
there just as they fail `c < 'A' ∨ 'Z' < c` here.) -/
def isCharMatch (caseSen : Bool) (c m : Char) : Bool :=
  if c = m then true
  else if caseSen then false
  else if c.toNat < 65 ∨ 90 < c.toNat then false
  else decide (c.toNat + 32 = m.toNat)

/-- The scanning loop of `ED_ISCheckMatch`: does `pat` match the front of
`text` (the buffer contents from the candidate position)?  The C loop walks
both gap segments; skipping the gap is exactly reading the logical text. -/
def checkMatchList (caseSen : Bool) : List Char → List Char → Bool
  | _, [] => true
  | [], _ :: _ => false
  | c :: cs, m :: ms => isCharMatch caseSen c m && checkMatchList caseSen cs ms

/-- `ED_ISCheckMatch` (sc_Editor.c:10694): position `pos` starts a full
match of `pat` in `buf`.  An empty pattern never matches (`MatchLen == 0`
returns 0 up front). -/
def isCheckMatch (caseSen : Bool) (buf pat : List Char) (pos : Nat) : Bool :=
  !pat.isEmpty && checkMatchList caseSen (buf.drop pos) pat

/-- The forward scanning loop of `ED_ISMatchForward` (sc_Editor.c:10756),
with the remaining position count `LastPos − cur` as structural recursion
measure: zero remaining means `cur ≥ LastPos`, the loop exit. -/
def scanForwardAux (caseSen : Bool) (buf pat : List Char) :
    Nat → Nat → Option Nat
  | 0, _ => none
  | rem + 1, cur =>
    if isCheckMatch caseSen buf pat cur then some cur
    else scanForwardAux caseSen buf pat rem (cur + 1)

/-- First `p ≥ cur` with `p < LastPos` that starts a match. -/
def scanForward (caseSen : Bool) (buf pat : List Char) (cur : Nat) : Option Nat :=
  scanForwardAux caseSen buf pat (buf.length - cur) cur

/-- `ED_ISMatchForward` (sc_Editor.c:10742).  `startPos` is `Int32`; the
wrap-pending flag restarts the scan at 0.  Returns `none` for the C
result −1. -/
def isMatchForward (caseSen : Bool) (buf pat : List Char) (startPos : Int)
    (doWrap : Bool) : Option Nat :=
  if doWrap then
    scanForward caseSen buf pat 0
  else if startPos < 0 then
    scanForward caseSen buf pat 0
  else if startPos ≥ (buf.length : Int) then
    none
  else
    scanForward caseSen buf pat startPos.toNat

/-- The backward scanning loop of `ED_ISMatchBackward` (sc_Editor.c:10785):
`while (CurPos) { test CurPos; CurPos--; }` — position 0 is never tested. -/
def scanBackward (caseSen : Bool) (buf pat : List Char) : Nat → Option Nat
  | 0 => none
  | n + 1 =>
    if isCheckMatch caseSen buf pat (n + 1) then some (n + 1)
    else scanBackward caseSen buf pat n

/-- `ED_ISMatchBackward` (sc_Editor.c:10770), non-wrap entry
(`ED_ISDoWrap == 0`): start just before `startPos`, clamp into
`[0, LastPos − patLen]`, then scan downward — never testing position 0. -/
def isMatchBackward (caseSen : Bool) (buf pat : List Char) (startPos : Int) :
    Option Nat :=
  let lastPos : Int := buf.length
  let patLen : Int := pat.length
  let cur : Int := startPos - 1
  if cur < 0 then
    let cur2 : Int := lastPos - patLen
    if cur2 < 0 then none
    else scanBackward caseSen buf pat cur2.toNat
  else if cur > lastPos - patLen then none
  else scanBackward caseSen buf pat cur.toNat

/-! ## Incremental search / query-replace: the case-sensitivity flag -/

/-- The flag computation of `ED_QREPStart` (sc_Editor.c:11317-11323): scan
the from-string, set the flag on the first byte with
`('A' <= c) && (c < 'Z')` — note the strict `< 'Z'`. -/
def qrepCaseSen (fromStr : List Char) : Bool :=
  fromStr.any (fun c => decide (65 ≤ c.toNat) && decide (c.toNat < 90))

/-- The flag update of `ED_ISHandleChars` (sc_Editor.c:11010-11011): a typed
character in `'A'..'Z'` switches the flag on; nothing ever switches it off
while the search is active. -/
def isTypedCaseSen (caseSen : Bool) (symChar : Nat) : Bool :=
  caseSen || (decide (65 ≤ symChar) && decide (symChar ≤ 90))

/-- Modelled from the spec: "a case-sensitivity flag (auto-enabled when
pattern contains an uppercase ASCII letter)" — uppercase meaning `'A'`
through `'Z'` inclusive.  For comparison with `qrepCaseSen`. -/
def specCaseSen (pat : List Char) : Bool :=
  pat.any (fun c => decide (65 ≤ c.toNat) && decide (c.toNat ≤ 90))

/-! ## Command dispatch: the numeric-multiplier sub-parser

`ED_FrameCommandMatch` (sc_Editor.c:2940) appends the key's bytes to the
in-progress sequence `ED_CmdStr` and runs the numeric-multiplier logic on
them.  The binding search `ED_FRegFindBinding` that a completed sequence is
handed to is outside the claims; it is represented by the `matchKeys`
result carrying exactly the bytes the C code passes it
(`ED_CmdStr + ED_CmdMultLen`). -/

/-- Byte `i` of a key-sequence byte list (reads past the end as 0; the C
code only reads written bytes). -/
def byteN (l : List Nat) (i : Nat) : Nat := l.getD i 0

/-- A key press as it reaches `ED_FrameCommandMatch`: modifier state and
the keysym after keypad folding (printable syms are ≤ 0x7e; `0xff0d` is
Return; syms ≥ 0x100 are extended keys).  Super/Hyper are not exercised by
the claims and are left out of the modifier set. -/
structure Key where
  ctrl : Bool
  meta : Bool
  sym : Nat
deriving Repr, DecidableEq

/-- The forced lowercasing of sc_Editor.c:2971. -/
def lowerSym (c : Nat) : Nat :=
  if 65 ≤ c ∧ c ≤ 90 then c + 32 else c

/-- The character byte `C` computed at sc_Editor.c:2964-2972. -/
def keyChar (k : Key) : Nat :=
  if k.sym = 0xff0d then 0x0d
  else if 0x100 ≤ k.sym then k.sym % 0x100
  else lowerSym k.sym

/-- The bytes one key press appends to `ED_CmdStr`
(sc_Editor.c:2960-2975): modifier bytes (Control 0x16, Meta 0x17), then an
Ext marker 0x15 for extended keys, then the character byte. -/
def keyBytes (k : Key) : List Nat :=
  (if k.ctrl then [0x16] else []) ++
    (if k.meta then [0x17] else []) ++
    (if k.sym = 0xff0d then [0x0d]
     else if 0x100 ≤ k.sym then [0x15, k.sym % 0x100]
     else [lowerSym k.sym])

/-- The dispatcher state the multiplier parser reads and writes:
`ED_CmdStr` (as byte list, its length is `ED_CmdLen`), `ED_CmdMult`,
`ED_CmdMultCmd`, `ED_CmdMultNeg`, `ED_CmdMultDigit`, `ED_CmdMultIn`,
`ED_CmdMultLen`. -/
structure CmdState where
  cmdStr : List Nat
  mult : Nat
  multCmd : Bool
  multNeg : Bool
  multDigit : Nat
  multIn : Bool
  multLen : Nat
deriving Repr, DecidableEq

/-- The state installed at sc_Editor.c:2946-2956 when no match is in
progress. -/
def initCmd : CmdState :=
  { cmdStr := [], mult := 1, multCmd := false, multNeg := false,
    multDigit := 0, multIn := false, multLen := 0 }

/-- What one key press leads to, seen from the multiplier parser:
`cont` — return 0 with the match still in progress (inside the multiplier,
or a partial binding match); `insertChar` — return 1, the character is
handed back for insertion (the multiplier values at that moment ride along
in `ED_CmdMult`/`ED_CmdMultNeg`); `badNum` — too many digits, the command
is aborted with an error and nothing is invoked (sc_Editor.c:3023-3027);
`matchKeys` — the bytes after `ED_CmdMultLen` are handed to the binding
matcher together with the multiplier. -/
inductive StepOut where
  | cont (st : CmdState)
  | insertChar (mult : Nat) (neg : Bool)
  | badNum
  | matchKeys (keys : List Nat) (mult : Nat) (neg : Bool)
deriving Repr, DecidableEq

/-- One run of `ED_FrameCommandMatch` (sc_Editor.c:2940-3084) from the
point after state initialisation, up to (and abstracting) the call to
`ED_FRegFindBinding`. -/
def commandStep (st0 : CmdState) (k : Key) : StepOut :=
  let newI := st0.cmdStr.length
  let c := keyChar k
  let str1 := st0.cmdStr ++ keyBytes k
  -- Entering CommandMult? (sc_Editor.c:2978-3000)
  let st1 : CmdState :=
    if newI = 0 then
      if byteN str1 0 = 0x16 ∧ byteN str1 1 = 0x75 then
        { st0 with cmdStr := str1, mult := 0, multCmd := true, multIn := true }
      else if byteN str1 0 = 0x17 then
        if byteN str1 1 = 0x2d then
          { st0 with
              cmdStr := str1, mult := 0, multCmd := true,
              multNeg := true, multIn := true }
        else if 0x30 ≤ byteN str1 1 ∧ byteN str1 1 ≤ 0x39 then
          { st0 with
              cmdStr := str1, mult := byteN str1 1 - 0x30,
              multCmd := true, multDigit := 1, multIn := true }
        else { st0 with cmdStr := str1 }
      else { st0 with cmdStr := str1 }
    else { st0 with cmdStr := str1 }
  -- Already in CommandMult! (sc_Editor.c:3003-3045)
  if st1.multIn ∧ 0 < newI then
    if byteN str1 newI = 0x2d then
      if st1.multDigit = 0 ∧ ¬ st1.multNeg then
        let st2 := { st1 with multNeg := true }
        StepOut.cont { st2 with multLen := st2.cmdStr.length }
      else
        -- the minus is just a char, insert it (prefix state discarded)
        StepOut.insertChar st1.mult st1.multNeg
    else if 0x30 ≤ c ∧ c ≤ 0x39 then
      -- digits accumulate; modifier bytes of this key are overwritten
      let st2 :=
        { st1 with
            cmdStr := st1.cmdStr.take newI ++ [c],
            multDigit := st1.multDigit + 1,
            mult := st1.mult * 10 + (c - 0x30) }
      if 5 < st2.multDigit then StepOut.badNum
      else StepOut.cont { st2 with multLen := st2.cmdStr.length }
    else
      -- done with numbers
      let st2 :=
        { st1 with
            multIn := false,
            mult := if st1.multDigit = 0 then
                      (if st1.multNeg then 1 else 4)
                    else st1.mult }
      if 0x19 < byteN str1 newI ∨ byteN str1 newI < 0x15 then
        StepOut.insertChar st2.mult st2.multNeg
      else
        StepOut.matchKeys (st2.cmdStr.drop st2.multLen) st2.mult st2.multNeg
  else if st1.multIn then
    StepOut.cont { st1 with multLen := st1.cmdStr.length }
  else
    StepOut.matchKeys (st1.cmdStr.drop st1.multLen) st1.mult st1.multNeg

/-- Feed a key sequence; a non-`cont` outcome is final (the theorems only
use sequences whose last key produces it). -/
def runKeys (st : CmdState) : List Key → StepOut
  | [] => StepOut.cont st
  | k :: ks =>
    match commandStep st k with
    | StepOut.cont st1 => runKeys st1 ks
    | r => r

/-- `Ctrl+U`. -/
def kCtrlU : Key := ⟨true, false, 117⟩

/-- `Meta+-`. -/
def kMetaMinus : Key := ⟨false, true, 45⟩

/-- `Meta+digit`. -/
def kMetaDigit (d : Fin 10) : Key := ⟨false, true, 48 + d.val⟩

/-- A bare digit key. -/
def kDigit (d : Fin 10) : Key := ⟨false, false, 48 + d.val⟩

/-- A bare minus key. -/
def kMinus : Key := ⟨false, false, 45⟩

/-- `Ctrl+N` — a representative command key. -/
def kCtrlN : Key := ⟨true, false, 110⟩

/-- A bare `a` — a representative self-inserting key. -/
def kCharA : Key := ⟨false, false, 97⟩

/-- Decimal accumulation, as the digit branch performs it. -/
def digitsVal (ds : List (Fin 10)) : Nat :=
  ds.foldl (fun a d => a * 10 + d.val) 0

/-! ## Kill ring -/

/-- `ED_KILLRINGCOUNT` (sc_Editor.c:365). -/
def killRingCount : Nat := 16

/-- The kill ring at the content level: the 16 `EltArr` entries, each as
the byte string it denotes (the C entries are `{Pos, Len}` windows into
the `TopP`/`RestP` byte buffers; the offset juggling of
`ED_KillRingAdvanceTop`/`Append`/`Prepend`/`WriteTop` only maintains those
windows, their denoted strings are what is modelled), the top index, and
the yank index. -/
structure KillRing where
  elts : List (List Char)
  topI : Nat
  yankI : Nat
deriving Repr, DecidableEq

/-- `ED_KillRingInit` (sc_Editor.c:2175): 16 empty entries, top index 0,
yank index `(0 − 1) & 15 = 15`. -/
def killRingInit : KillRing :=
  { elts := List.replicate killRingCount [], topI := 0, yankI := 15 }

/-- `ED_KillRingAdvanceTop` (sc_Editor.c:2286): reset the yank index; if
the top entry is empty, nothing else; otherwise the next ring slot is
zapped and becomes the new (empty) top, while the old top's content is
packed into `RestP` (content unchanged). -/
def killRingAdvanceTop (kr : KillRing) : KillRing :=
  let kr1 := { kr with yankI := kr.topI }
  if kr1.elts.getD kr1.topI [] = [] then kr1
  else
    let lastI := (kr1.topI + 1) % killRingCount
    { kr1 with elts := kr1.elts.set lastI [], topI := lastI }

/-- `ED_KillRingWriteTop` (sc_Editor.c:2341): reset yank index, store
`data` as the top entry. -/
def killRingWriteTop (kr : KillRing) (data : List Char) : KillRing :=
  { kr with yankI := kr.topI, elts := kr.elts.set kr.topI data }

/-- `ED_KillRingAppendTop` (sc_Editor.c:2224): the top entry grows at its
end (the slide/realloc there only makes room). -/
def killRingAppendTop (kr : KillRing) (data : List Char) : KillRing :=
  { kr with elts := kr.elts.set kr.topI (kr.elts.getD kr.topI [] ++ data) }

/-- `ED_KillRingPrependTop` (sc_Editor.c:2256): the top entry grows at its
start. -/
def killRingPrependTop (kr : KillRing) (data : List Char) : KillRing :=
  { kr with elts := kr.elts.set kr.topI (data ++ kr.elts.getD kr.topI []) }

/-- `ED_KillRingAdd` (sc_Editor.c:2367).  `lastWasKill` stands for the
condition `(ED_QRPaneP && ED_QRLastCmd == ED_QRKillCmd) ||
(ED_CmdLastId == ED_KillId)`.  The trailing `ED_XSelSetClip` call is host
clipboard traffic, outside the model. -/
def killRingAdd (kr : KillRing) (data : List Char) (opForward : Bool)
    (lastWasKill : Bool) : KillRing :=
  if lastWasKill then
    if opForward then killRingAppendTop kr data
    else killRingPrependTop kr data
  else
    killRingWriteTop (killRingAdvanceTop kr) data

/-! ## Word scanning and `ED_CmdDelNextWord` -/

/-- Alpha test on a buffer byte. -/
def charIsAlpha (c : Char) : Bool := cIsAlpha c.toNat

/-- `ED_AuxCmdInWordScan` (sc_Editor.c:7217) with `Dir = 1`: advance the
cursor while the alpha-ness equals `inWord`; after each step, reaching
`limit` returns with the hit flag (C return value 1).  The C loop tests
`pos == limit` only; forward stepping reaches it exactly, so the distance
`limit − pos` serves as structural recursion measure (`≤` in the guard
agrees with `==` on every reachable call). -/
def inWordScanAux (buf : List Char) (inWord : Bool) (limit : Nat) :
    Nat → Nat → Nat × Bool
  | 0, pos => (pos + 1, true)
  | f + 1, pos =>
    let pos1 := pos + 1
    if limit ≤ pos1 then (pos1, true)
    else if charIsAlpha (buf.getD pos1 ⟨0, by decide⟩) = inWord then
      inWordScanAux buf inWord limit f pos1
    else (pos1, false)

/-- One `ED_AuxCmdInWordScan(…, Dir = 1, limit)` call from `pos`. -/
def inWordScanF (buf : List Char) (inWord : Bool) (limit : Nat) (pos : Nat) :
    Nat × Bool :=
  inWordScanAux buf inWord limit (limit - pos) pos

/-- The loop body of `ED_CmdDelNextWord` (sc_Editor.c:8244-8247): one
word-forward movement of the cursor. -/
def delWordScanOnce (buf : List Char) (limit pos : Nat) : Nat :=
  if charIsAlpha (buf.getD pos ⟨0, by decide⟩) then
    (inWordScanF buf true limit pos).1
  else
    let r := inWordScanF buf false limit pos
    if r.2 then r.1 else (inWordScanF buf true limit r.1).1

/-- The `while (ED_CmdMult--)` loop of `ED_CmdDelNextWord`
(sc_Editor.c:8239-8248): repeat the word movement `mult` times, stopping
at the end of the buffer. -/
def delWordScanLoop (buf : List Char) (limit : Nat) : Nat → Nat → Nat
  | 0, pos => pos
  | m + 1, pos =>
    if pos = limit then pos
    else delWordScanLoop buf limit m (delWordScanOnce buf limit pos)

/-- Result of `ED_CmdDelNextWord` on the state the claim observes. -/
structure DelWordOut where
  buf : List Char
  cursor : Nat
  kr : KillRing
  thisIsKill : Bool
deriving Repr, DecidableEq

/-- `ED_CmdDelNextWord` (sc_Editor.c:8216), for a writable buffer, no
selection, non-negative multiplier.  At end of buffer: echo only, and the
command does not mark itself as a kill (`ED_CmdThisId` is only set after
that check).  Otherwise the scanned range is removed, recorded in the
kill ring (forward direction), and the cursor stays (sc_Editor.c:8258).
The undo block, mark update and redraw calls do not touch the kill ring
and are omitted here. -/
def cmdDelNextWord (buf : List Char) (cursor : Nat) (mult : Nat)
    (kr : KillRing) (lastWasKill : Bool) : DelWordOut :=
  if cursor = buf.length then
    { buf := buf, cursor := cursor, kr := kr, thisIsKill := false }
  else
    let endPos := delWordScanLoop buf buf.length mult cursor
    let total := endPos - cursor
    if total = 0 then
      { buf := buf, cursor := cursor, kr := kr, thisIsKill := true }
    else
      let killed := (buf.drop cursor).take total
      { buf := buf.take cursor ++ buf.drop (cursor + total),
        cursor := cursor,
        kr := killRingAdd kr killed true lastWasKill,
        thisIsKill := true }

/-! ## Cross-pane updates: `ED_PaneUpdateOtherPanes` -/

/-- The bare position bump of `ED_PaneUpdateOtherPanes`
(sc_Editor.c:5927-5930 for `PanePos`, 5936-5939 for the cursor): a
position strictly after the insertion point moves by `insertCount`, and
for deletions is not moved back past the insertion point; `insertCount =
0` means "chars were altered", no movement at all (sc_Editor.c:5914). -/
def paneAdjustPos (pos insertPos insertCount : Int) : Int :=
  if insertCount = 0 then pos
  else if insertPos < pos then
    let p := pos + insertCount
    if p < insertPos then insertPos else p
  else pos

/-- The continuation-byte skip `while (ED_BUFFERISMIDUTF8(*CurP)) CurP--,
Pos--;` (sc_Editor.c:3988): step back from `pos` to the lead byte. -/
def skipContBack (text : List Char) : Nat → Nat
  | 0 => 0
  | p + 1 => if isMidUTF8 (byteAt text (p + 1)) then skipContBack text p else p + 1

/-- The backward scan of `ED_PaneUpdateStartPos` (sc_Editor.c:3987-4004):
from the character ending at `pos`, walk back to the hard start of the
line, returning the line-start position and the number of characters
between it and the original viewport start.  One outer C iteration per
recursive call; each iteration lowers `pos` by at least one, so `pos`
itself serves as fuel, the fuel-exhausted arm coinciding with the
`Pos == 0` exit. -/
def lineScanBackAux (text : List Char) : Nat → Nat → Nat → Nat × Nat
  | 0, _, count => (0, count + 1)
  | f + 1, pos, count =>
    let p1 := skipContBack text pos
    let count1 := count + 1
    if p1 = 0 then (0, count1)
    else if byteAt text p1 = 10 then (p1 + 1, count1 - 1)
    else lineScanBackAux text f (p1 - 1) count1

/-- The forward re-wrap walk of `ED_PaneUpdateStartPos`
(sc_Editor.c:4006-4025): from the line start, advance `count` characters,
stopping at the end of the buffer, falling back to the last wrap start on
a newline, and remembering each wrap boundary passed. -/
def rewrapForward (text : List Char) (rowChars lastPos : Nat) :
    Nat → Nat → Nat → Nat → Nat
  | 0, pos, _, _ => pos
  | c + 1, pos, prevRow, sub =>
    let pos1 := pos + getUTF8Len (byteAt text pos)
    if pos1 = lastPos then pos1
    else if byteAt text pos1 = 10 then prevRow
    else
      let sub1 := sub + 1
      if sub1 = rowChars then rewrapForward text rowChars lastPos c pos1 pos1 0
      else rewrapForward text rowChars lastPos c pos1 prevRow sub1

/-- `ED_PaneUpdateStartPos` (sc_Editor.c:3971): re-align a pane's viewport
start after the buffer changed (`oldRowChars = 0`) or the frame width
changed.  A start at 0 or right after a newline is left alone; a start on
a wrapped continuation row is re-derived: count the characters from the
hard line start, keep the number of whole wrapped rows, and walk forward
that many rows at the (new) width. -/
def paneUpdateStartPos (text : List Char) (rowChars oldRowChars panePos : Nat) :
    Nat :=
  if panePos = 0 ∨ oldRowChars = rowChars then panePos
  else if byteAt text (panePos - 1) = 10 then panePos
  else
    let orc := if oldRowChars = 0 then rowChars else oldRowChars
    let r := lineScanBackAux text (panePos - 1) (panePos - 1) 0
    let rowCount := r.2 / orc
    rewrapForward text rowChars text.length (rowCount * rowChars) r.1 r.1 0

/-- The viewport-start and cursor updates `ED_PaneUpdateOtherPanes`
performs for one other pane showing the same buffer
(sc_Editor.c:5914-5943): when `insertCount ≠ 0`, a viewport start
strictly after the insertion point is bumped (with the deletion clamp)
and then re-aligned by `ED_PaneUpdateStartPos(FPaneP, 0)` against the
changed text; the cursor is only bumped.  `text` is the buffer content
after the change.  The subsequent `ED_PaneMoveAfterCursorMove` call never
changes `CursorPos` and leaves `PanePos` alone whenever the cursor is
still within the pane's visible rows (sc_Editor.c:5036-5041); panes whose
cursor scrolls off-screen are outside this model. -/
def paneUpdateOtherPane (text : List Char) (rowChars : Nat)
    (panePos cursorPos insertPos insertCount : Int) : Int × Int :=
  if insertCount = 0 then (panePos, cursorPos)
  else
    let pp : Int :=
      if insertPos < panePos then
        let p1 := panePos + insertCount
        let p2 := if p1 < insertPos then insertPos else p1
        ((paneUpdateStartPos text rowChars 0 p2.toNat : Nat) : Int)
      else panePos
    (pp, paneAdjustPos cursorPos insertPos insertCount)

/-! ## Mark ring -/

/-- `ED_MARKRINGCOUNT` slots of byte positions (`Int32`). -/
structure MarkRing where
  slots : List Int
  top : Nat
deriving Repr, DecidableEq

/-- `ED_BufferUpdateMark` (sc_Editor.c:6140): every slot `≥ pos` moves by
`delta`, clamped back to `pos` (possible only for negative `delta`). -/
def markRingUpdate (mr : MarkRing) (pos delta : Int) : MarkRing :=
  { mr with
      slots := mr.slots.map fun s =>
        if pos ≤ s then
          let s1 := s + delta
          if s1 < pos then pos else s1
        else s }

/-! ## Undo log

`ED_UBlockRecord`s live packed inside slabs; a block is modelled as a
record carrying its flags, position, length and (for Del blocks) its data.
Slab allocation (`ED_BufferAllocUndoBlock`, `ED_BufferAddNewUndoSlab`),
slab GC and the resulting splitting of long Del blocks are memory
management below the level of the claims: the log is modelled as one
unbounded slab, so every block fits and blocks are never purged.  Block
offsets inside the slab become list indices; a block's `PrevUBlock` is the
preceding list entry, and `PrevUBlock == 0` (no predecessor) is index 0. -/

/-- One undo block: flags `ED_UB_DEL` (its absence is `ED_UB_ADD`),
`ED_UB_CHUNK`, `ED_UB_CHAIN`, `ED_UB_FIRSTMOD`, `ED_UB_SAVE`; `DataPos`
(an `Int32`, −1 marks Save placeholders), `DataLen`, and the stored bytes
(Del blocks only; Add blocks carry no data). -/
structure UBlock where
  del : Bool
  chunk : Bool
  chain : Bool
  firstMod : Bool
  save : Bool
  pos : Int
  len : Nat
  data : List Char
deriving Repr, DecidableEq

/-- The mode argument of `ED_BufferAddUndoBlock` (`ED_UB_*` combinations
that callers pass). -/
structure UMode where
  del : Bool
  chunk : Bool
  chain : Bool
  save : Bool
deriving Repr, DecidableEq

/-- `ED_UNDO_DATASIZE` (sc_Editor.c:13418). -/
def undoDataSize : Nat := 35

/-- A buffer together with its undo log and the two flags
`ED_BUFCLEANUNDOFLAG` / `ED_BUFMODFLAG` the undo engine maintains. -/
structure UndoBuf where
  text : List Char
  log : List UBlock
  clean : Bool
  modFlag : Bool
deriving Repr, DecidableEq

/-- `ED_BufferAddUndoBlock` (sc_Editor.c:13689).  Implements: the
first-modification flag handling (a clean buffer suppresses merging and
stamps `FIRSTMOD`); Del-with-Del coalescing in both directions (never for
`CHUNK` blocks, bounded by `ED_UNDO_DATASIZE`); Add-with-Add coalescing
(forced for `CHAIN` requests, size- and adjacency-bounded otherwise); Save
placeholder blocks; and plain appends.  The in-slab fit conditions and the
splitting of an oversized Del across slabs always hold trivially in the
one-slab model; `ED_XSelAlterPrimary` and GC level 0 are outside it. -/
def addUndoBlock (b : UndoBuf) (pos : Int) (len : Nat) (mode : UMode)
    (data : List Char) : UndoBuf :=
  let firstMod := b.clean
  let b := { b with clean := false }
  let tryMerge : Option UndoBuf :=
    if firstMod then none
    else
      match b.log.getLast? with
      | none => none
      | some ub =>
        if mode.del then
          if ¬ mode.chunk ∧ ub.del ∧ ¬ ub.chunk ∧ ¬ ub.chain ∧
              ub.len + len ≤ undoDataSize then
            if ub.pos = pos then
              some { b with
                       log := b.log.dropLast ++
                         [{ ub with data := ub.data ++ data, len := ub.len + len }] }
            else if ub.pos - (len : Int) = pos then
              some { b with
                       log := b.log.dropLast ++
                         [{ ub with
                              data := data ++ ub.data, len := ub.len + len,
                              pos := pos }] }
            else none
          else none
        else if ¬ ub.del then
          if mode.chain then
            some { b with
                     log := b.log.dropLast ++ [{ ub with len := ub.len + len }] }
          else if 0 ≤ ub.pos ∧ ¬ ub.chunk ∧ ¬ ub.chain ∧
              ub.len + len ≤ undoDataSize ∧ ub.pos + (ub.len : Int) = pos then
            some { b with
                     log := b.log.dropLast ++ [{ ub with len := ub.len + len }] }
          else none
        else none
  match tryMerge with
  | some b1 => b1
  | none =>
    if mode.save then
      { b with
          log := b.log ++
            [{ del := false, chunk := false, chain := false, firstMod := false,
               save := true, pos := -1, len := 0, data := [] }],
          clean := if firstMod then true else b.clean }
    else if mode.del then
      { b with
          log := b.log ++
            [{ del := true, chunk := mode.chunk, chain := false,
               firstMod := firstMod, save := false, pos := pos, len := len,
               data := data }] }
    else
      { b with
          log := b.log ++
            [{ del := false, chunk := mode.chunk, chain := mode.chain,
               firstMod := firstMod, save := false, pos := pos, len := len,
               data := [] }] }

/-- The undo read head: `ED_UndoBlock` as a 1-based index into the log
(`0` = reset or exhausted, `h` = block `h − 1` was delivered last), plus
the sticky `ED_UndoSeenSave`. -/
structure UndoSt where
  buf : UndoBuf
  head : Nat
  seenSave : Bool
  lastWasUndo : Bool
deriving Repr, DecidableEq

/-- `ED_BufferUndo` (sc_Editor.c:13837): deliver the next block walking
backward, or `none` at the very end of history (also when the log is
empty, `LastUBlock == 0`). -/
def bufferUndoStep (log : List UBlock) (head : Nat) (lastWasUndo : Bool) :
    Option (UBlock × Nat) :=
  if log.isEmpty then none
  else
    match head with
    | 0 =>
      if lastWasUndo then none
      else
        match log.getLast? with
        | none => none
        | some ub => some (ub, log.length)
    | h + 1 =>
      if h = 0 then none
      else
        match log.get? (h - 1) with
        | none => none
        | some ub => some (ub, h)

/-- Undoing one delivered block (the two arms of sc_Editor.c:13917-13969):
an Add block deletes its extent again and records a Del block (with the
bytes it removed); a Del block re-inserts its data and records an Add
block; the first-modification / save bookkeeping updates the buffer
flags. -/
def undoApplyBlock (b : UndoBuf) (ub : UBlock) (didChain : Bool)
    (seenSave : Bool) : UndoBuf :=
  if ¬ ub.del then
    let p := ub.pos.toNat
    let removed := (b.text.drop p).take ub.len
    let b1 := { b with text := b.text.take p ++ b.text.drop (p + ub.len) }
    let b2 := addUndoBlock b1 ub.pos ub.len
      { del := true, chunk := false, chain := didChain, save := false } removed
    if ¬ seenSave ∧ ub.firstMod then
      { b2 with clean := true, modFlag := false }
    else { b2 with modFlag := true }
  else
    let p := ub.pos.toNat
    let b1 := { b with text := b.text.take p ++ ub.data ++ b.text.drop p }
    let b2 := addUndoBlock b1 ub.pos ub.len
      { del := false, chunk := false, chain := didChain, save := false } []
    if ¬ seenSave ∧ ub.firstMod then
      { b2 with clean := true, modFlag := false }
    else { b2 with modFlag := true }

/-- The `GetAnother` loop of `ED_CmdUndo` (sc_Editor.c:13913-13972).  The
fuel bounds the loop; the head index strictly decreases on every
iteration, so `log.length + 1` is always enough. -/
def cmdUndoLoop (st : UndoSt) (didChain : Bool) : Nat → UndoSt
  | 0 => st
  | fuel + 1 =>
    match bufferUndoStep st.buf.log st.head st.lastWasUndo with
    | none => st
    | some (ub, head1) =>
      if ¬ ub.del ∧ ub.pos = -1 then
        -- Save (or other marker) block: note it, get another
        let st1 :=
          { st with
              head := head1, seenSave := st.seenSave || ub.save }
        cmdUndoLoop st1 didChain fuel
      else
        let b1 := undoApplyBlock st.buf ub didChain st.seenSave
        let st1 := { st with buf := b1, head := head1 }
        if ub.chain then cmdUndoLoop st1 true fuel else st1

/-- `ED_CmdUndo` (sc_Editor.c:13893) for a writable buffer: reset the read
head unless the previous command was also undo, then consume one chained
run of blocks.  Pane cursor/viewport updates and redraws are outside the
model. -/
def cmdUndo (st : UndoSt) : UndoSt :=
  let st := if st.lastWasUndo then st else { st with head := 0, seenSave := false }
  let st1 := cmdUndoLoop st false (st.buf.log.length + 1)
  { st1 with lastWasUndo := true }

/-! ## Query-replace: `ED_QREPReplace` and the replace-all loop -/

/-- The query-replace state the `!` loop touches: the buffer with its undo
log, the kill ring, the from/to strings, the search state
(`ED_ISMatchPos`, `ED_ISSearchPos`, case flag) and the replacement
count. -/
structure QrepSt where
  buf : UndoBuf
  kr : KillRing
  fromStr : List Char
  toStr : List Char
  caseSen : Bool
  matchPos : Option Nat
  searchPos : Int
  count : Nat
deriving Repr, DecidableEq

/-- `ED_QREPReplace` (sc_Editor.c:11156): at `ED_ISMatchPos`, record a
`DEL|CHUNK` undo block holding the from-string occurrence, push that text
on the kill ring the first time only, remove it, then (for a non-empty
to-string) record an `ADD|CHUNK|CHAIN` block and insert the to-string;
finally `ED_ISSearchPos = ED_ISMatchPos + ED_QREPToLen`.  Pane updates are
outside the model.  Called only with a current match. -/
def qrepReplace (q : QrepSt) : QrepSt :=
  let startPos := q.matchPos.getD 0
  let fromLen := q.fromStr.length
  let count1 := q.count + 1
  let killed := (q.buf.text.drop startPos).take fromLen
  let b1 := addUndoBlock q.buf (startPos : Int) fromLen
    { del := true, chunk := true, chain := false, save := false } killed
  let b1 := { b1 with modFlag := true }
  let kr1 := if count1 = 1 then killRingAdd q.kr killed true false else q.kr
  let b2 := { b1 with
                text := b1.text.take startPos ++ b1.text.drop (startPos + fromLen) }
  let b3 :=
    if q.toStr.length ≠ 0 then
      let b2a := addUndoBlock b2 (startPos : Int) q.toStr.length
        { del := false, chunk := true, chain := true, save := false } []
      { b2a with
          text := b2a.text.take startPos ++ q.toStr ++ b2a.text.drop startPos }
    else b2
  { q with
      buf := b3, kr := kr1, count := count1,
      searchPos := (startPos : Int) + q.toStr.length }

/-- `ED_QREPSearchUpdate` (sc_Editor.c:11124) on the search state: a found
match becomes the current one with `ED_ISSearchPos = MatchPos +
ED_ISStrLen` (the pattern is the from-string); `none` ends the run. -/
def qrepSearchUpdate (q : QrepSt) (m : Option Nat) : QrepSt :=
  match m with
  | some p =>
    { q with matchPos := some p, searchPos := (p : Int) + q.fromStr.length }
  | none => { q with matchPos := none }

/-- The `!` branch of `ED_QREPHandleChars` (sc_Editor.c:11260-11267):
`do { replace; search forward; update; } while (MatchPos > 0)`.  The fuel
bounds the do-while; each iteration moves `searchPos` past the replaced
occurrence, so the remaining text length bounds the number of
iterations. -/
def qrepBangLoop (q : QrepSt) : Nat → QrepSt
  | 0 => q
  | fuel + 1 =>
    let q1 := qrepReplace q
    let m := isMatchForward q1.caseSen q1.buf.text q1.fromStr q1.searchPos false
    let q2 := qrepSearchUpdate q1 m
    match m with
    | some p => if 0 < p then qrepBangLoop q2 fuel else q2
    | none => q2

/-- `ED_QREPStart` (sc_Editor.c:11294) on the modelled state: install the
from-string as the search pattern, compute the case flag with
`qrepCaseSen`, search forward from the cursor and make the result
current. -/
def qrepStart (b : UndoBuf) (kr : KillRing) (fromStr toStr : List Char)
    (cursor : Nat) : QrepSt :=
  let cs := qrepCaseSen fromStr
  let q0 : QrepSt :=
    { buf := b, kr := kr, fromStr := fromStr, toStr := toStr, caseSen := cs,
      matchPos := none, searchPos := (cursor : Int), count := 0 }
  let m := isMatchForward cs b.text fromStr q0.searchPos false
  qrepSearchUpdate q0 m

/-! ## `ED_CmdDelPrevChar` -/

/-- Length of the character that ends just before `cursor`: the
`CurP = GapStartP − 1; while (ED_BUFFERISMIDUTF8(*CurP)) CurP--, L++;`
scan of sc_Editor.c:8304-8305. -/
def prevCharLen (buf : List Char) : Nat → Nat
  | 0 => 1
  | cur + 1 =>
    if isMidUTF8 (byteAt buf cur) then
      (if cur = 0 then 1 else prevCharLen buf cur) + 1
    else 1

/-- The `while (ED_CmdMult--)` loop of `ED_CmdDelPrevChar`
(sc_Editor.c:8299-8311): step the cursor back `mult` characters, stopping
with the beginning-of-buffer echo when the cursor is at 0.  Returns the
new cursor, the byte count deleted and whether the echo fired. -/
def delPrevLoop (buf : List Char) : Nat → Nat → Nat × Nat × Bool
  | 0, cur => (cur, 0, false)
  | m + 1, cur =>
    if cur = 0 then (cur, 0, true)
    else
      let l := prevCharLen buf cur
      let r := delPrevLoop buf m (cur - l)
      (r.1, r.2.1 + l, r.2.2)

/-- The editing state `ED_CmdDelPrevChar` can touch. -/
structure DelPrevSt where
  buf : List Char
  cursor : Nat
  marks : MarkRing
  kr : KillRing
  undo : UndoBuf
  readOnly : Bool
  selActive : Bool
  echo : Option String
deriving Repr, DecidableEq

/-- `ED_CmdDelPrevChar` (sc_Editor.c:8282).  Read-only buffers return at
once; an active selection is handled by `ED_PaneDelSelRange` (the claim
assumes none, and without a selection that call returns 0 with no side
effect, sc_Editor.c:5549); then the loop above runs, and only a non-zero
`Total` mutates the buffer, records the `DEL` undo block and adjusts the
mark ring.  `ED_BufferPlaceGap` before the loop moves the gap only; the
kill ring is never touched by this command. -/
def cmdDelPrevChar (st : DelPrevSt) (mult : Nat) : DelPrevSt :=
  if st.readOnly then st
  else if st.selActive then st   -- selection path, excluded by the claims
  else
    let r := delPrevLoop st.buf mult st.cursor
    let cursor1 := r.1
    let total := r.2.1
    let st := if r.2.2 then { st with echo := some "Beginning of buffer" } else st
    if total = 0 then st
    else
      let removed := (st.buf.drop cursor1).take total
      { st with
          buf := st.buf.take cursor1 ++ st.buf.drop (cursor1 + total),
          cursor := cursor1,
          undo := { (addUndoBlock st.undo (cursor1 : Int) total
                      { del := true, chunk := false, chain := false,
                        save := false } removed) with modFlag := true },
          marks := markRingUpdate st.marks (cursor1 : Int) (-(total : Int)) }

/-! ## Command line: the file-opening loop of `main` -/

/-- The loop of sc_Main.c:506-513: `OpenInitCount` starts at 1 (`ArgV[0]`
is the program name); an argument that is empty or starts with `'-'` is
skipped; otherwise `ED_EditorOpenFile(CP, OpenInitCount > 1)` is called.
The result lists the `(path, NewFrame)` calls in order. -/
def mainOpenLoop : Nat → List (List Char) → List (List Char × Bool)
  | _, [] => []
  | i, a :: rest =>
    match a with
    | [] => mainOpenLoop (i + 1) rest
    | c :: _ =>
      if c = '-' then mainOpenLoop (i + 1) rest
      else (a, decide (1 < i)) :: mainOpenLoop (i + 1) rest

/-- The `ED_EditorOpenFile` calls `main` makes, for the argument vector
after the program name.  In `ED_EditorOpenFile` (sc_Editor.c:11753),
`NewFrame = 0` displays the file in the initial frame's pane and
`NewFrame = 1` creates an additional frame for it. -/
def mainOpens (argv : List (List Char)) : List (List Char × Bool) :=
  mainOpenLoop 1 argv

/-- An argument the loop does not skip. -/
def isPathArg : List Char → Bool
  | [] => false
  | c :: _ => c ≠ '-'

/-! ## Concrete scenarios referenced by the claims -/

/-- A fresh buffer holding `"aaa"`; a new buffer starts with
`ED_BUFCLEANUNDOFLAG` set and the modified bit clear (sc_Editor.c:6187). -/
def c1Buf : UndoBuf :=
  { text := "aaa".toList, log := [], clean := true, modFlag := false }

/-- Query-replace `"a"` → `"bb"` started on that buffer with the cursor at
position 0. -/
def c1Q0 : QrepSt := qrepStart c1Buf killRingInit "a".toList "bb".toList 0

/-- The state after answering `!` (the do-while loop runs three times on
this input; fuel 10 is more than enough). -/
def c1Bang : QrepSt := qrepBangLoop c1Q0 10

/-- The undo read state right after the query-replace command finishes
(the last completed command is not undo). -/
def c1U0 : UndoSt :=
  { buf := c1Bang.buf, head := 0, seenSave := false, lastWasUndo := false }

/-- The buffer `"one two three"`. -/
def c6Buf : List Char := "one two three".toList

/-- First delete-word-forward: cursor 0, fresh kill ring, previous command
not a kill. -/
def c6r1 : DelWordOut := cmdDelNextWord c6Buf 0 1 killRingInit false

/-- Second delete-word-forward, immediately after the first. -/
def c6r2 : DelWordOut := cmdDelNextWord c6r1.buf c6r1.cursor 1 c6r1.kr c6r1.thisIsKill

/-- Third delete-word-forward, immediately after the second. -/
def c6r3 : DelWordOut := cmdDelNextWord c6r2.buf c6r2.cursor 1 c6r2.kr c6r2.thisIsKill

/-- A state with the cursor at position 0 of buffer `"hi"`, no selection,
writable buffer — the premise of the delete-previous-char boundary
claim. -/
def c8St : DelPrevSt :=
  { buf := "hi".toList, cursor := 0, marks := ⟨[0, 1], 0⟩, kr := killRingInit,
    undo := ⟨"hi".toList, [], true, false⟩, readOnly := false,
    selActive := false, echo := none }

/-! ## Theorems -/

/-- C1, counterexample: on buffer `"aaa"`, query-replace `"a"` → `"bb"`
answered `!` does leave `"bbbbbb"`, but a single subsequent undo
invocation yields `"bbbba"`, not `"aaa"`: the six Del/Add undo blocks do
not form one chain. -/
theorem c1_counterexample :
    c1Bang.buf.text = "bbbbbb".toList ∧
    (cmdUndo c1U0).buf.text = "bbbba".toList ∧
    (cmdUndo c1U0).buf.text ≠ "aaa".toList := by
  refine ⟨by decide, by decide, by decide⟩

/-- C1, amended: answering `!` leaves `"bbbbbb"` after three replacements;
the undo log holds six blocks in which each replacement's Del is followed
by its chained Add, so one undo invocation undoes exactly one replacement
(`"bbbba"`), and three undo invocations restore `"aaa"`. -/
theorem c1_theorem :
    c1Bang.buf.text = "bbbbbb".toList ∧
    c1Bang.count = 3 ∧
    c1Bang.buf.log.map (fun b => (b.del, b.chain)) =
      [(true, false), (false, true), (true, false), (false, true),
       (true, false), (false, true)] ∧
    (cmdUndo c1U0).buf.text = "bbbba".toList ∧
    (cmdUndo (cmdUndo c1U0)).buf.text = "bbaa".toList ∧
    (cmdUndo (cmdUndo (cmdUndo c1U0))).buf.text = "aaa".toList := by
  refine ⟨by decide, by decide, by decide, by decide, by decide, by decide⟩

/-- C2, counterexample: with argument vector `-x f`, the single opened
path `f` is passed `NewFrame = 1` — it is displayed in an additional
frame, not in the initial frame as the claim states. -/
theorem c2_counterexample :
    mainOpens [['-', 'x'], ['f']] = [(['f'], true)] ∧
    ((['f'], true) : List Char × Bool) ≠ (['f'], false) := by
  refine ⟨by decide, by decide⟩

/-- C3, counterexample: an empty buffer with a zero-length gap asked for 1
free byte is expanded to capacity 513 = 0 + 1 + 512, not
0 + max(1, 512) = 512 as the claimed policy predicts. -/
theorem c3_counterexample :
    (⟨[], 0, []⟩ : GapBuffer).gapLen < (1 : Int).toNat ∧
    (placeGap ⟨[], 0, []⟩ 0 1).capacity = 513 ∧
    (placeGap ⟨[], 0, []⟩ 0 1).capacity ≠
      specExpandedCapacity (GapBuffer.textLen ⟨[], 0, []⟩) (1 : Int).toNat := by
  refine ⟨by decide, by decide, by decide⟩

/-- C3, amended: when `place_gap` must expand (requested free space
exceeds the gap), the new capacity is current text length + min_free +
extra_expand (the sum, not the maximum); otherwise the capacity is
unchanged; in particular no call ever reduces it. -/
theorem c3_theorem (b : GapBuffer) (offset : Nat) (len : Int) :
    (b.gapLen < len.toNat →
      (placeGap b offset len).capacity = b.textLen + len.toNat + gapExtraExpand) ∧
    (¬ b.gapLen < len.toNat →
      (placeGap b offset len).capacity = b.capacity) ∧
    b.capacity ≤ (placeGap b offset len).capacity := by
  have htext : (b.text.take offset).length + (b.text.drop offset).length =
      b.pre.length + b.suf.length := by
    simp [GapBuffer.text]
    omega
  constructor
  · intro h
    simp only [placeGap, if_pos h, GapBuffer.capacity, GapBuffer.textLen]
    omega
  constructor
  · intro h
    simp only [placeGap, if_neg h, GapBuffer.capacity]
    omega
  · by_cases h : b.gapLen < len.toNat
    · simp only [placeGap, if_pos h, GapBuffer.capacity]
      omega
    · simp only [placeGap, if_neg h, GapBuffer.capacity]
      omega

/-- C3, witness for the amended theorem at the counterexample's input. -/
theorem c3_witness :
    (placeGap ⟨[], 0, []⟩ 0 1).capacity =
      (⟨[], 0, []⟩ : GapBuffer).textLen + (1 : Int).toNat + gapExtraExpand :=
  (c3_theorem ⟨[], 0, []⟩ 0 1).1 (by decide)

/-- C4: the from-string `"Za"` contains the uppercase letter `Z`, yet
`ED_QREPStart`'s scan (`'A' <= c && c < 'Z'`, strict) leaves the
case-sensitivity flag off — contradicting the code's own comment
"Case-sensitive ONLY if has UpperCase in From string!" — and with the
flag off the buffer text `"ZA"` matches the pattern `"Za"`, although with
the flag on (as the claim requires) it would not. -/
theorem c4_theorem :
    qrepCaseSen "Za".toList = false ∧
    specCaseSen "Za".toList = true ∧
    isCheckMatch false "ZA".toList "Za".toList 0 = true ∧
    isCheckMatch true "ZA".toList "Za".toList 0 = false := by
  refine ⟨by decide, by decide, by decide, by decide⟩

/-- C6: when the previous completed command was a kill, a forward kill
appends its bytes to the end of the kill-ring top entry and a backward
kill prepends them to its start — same entry, same top index, no new
entry; and three consecutive delete-word-forward commands on
`"one two three"` (cursor 0) leave the single top entry
`"one two three"`, all other 15 entries empty. -/
theorem c6_theorem :
    (∀ (kr : KillRing) (data : List Char),
      killRingAdd kr data true true =
        { kr with elts := kr.elts.set kr.topI (kr.elts.getD kr.topI [] ++ data) }) ∧
    (∀ (kr : KillRing) (data : List Char),
      killRingAdd kr data false true =
        { kr with elts := kr.elts.set kr.topI (data ++ kr.elts.getD kr.topI []) }) ∧
    c6r3.kr.topI = 0 ∧
    c6r3.kr.elts = "one two three".toList :: List.replicate 15 [] ∧
    c6r3.buf = [] ∧
    c6r1.kr.elts.getD 0 [] = "one".toList ∧
    c6r2.kr.elts.getD 0 [] = "one two".toList := by
  refine ⟨fun kr data => rfl, fun kr data => rfl,
    by decide, by decide, by decide, by decide, by decide⟩

set_option maxRecDepth 8000 in
/-- C7, counterexample: in a 205-byte single-line buffer at 80-column
rows (200 bytes before the insertion of 5 at position 100), another
pane's viewport start 160 — a wrapped continuation row of the line
containing the insertion — is re-snapped by `ED_PaneUpdateStartPos` to
the wrap boundary 160, not increased to 165 as the claim requires; the
cursor at 170 does move to 175. -/
theorem c7_counterexample :
    paneUpdateOtherPane (List.replicate 205 'x') 80 160 170 100 5 =
      (160, 175) ∧
    ((160 : Int), (175 : Int)) ≠ ((165 : Int), (175 : Int)) := by
  refine ⟨by decide, by decide⟩

set_option maxRecDepth 8000 in
/-- C7, amended: after another pane inserts `n > 0` bytes at `p` (cursor
still visible in the pane), a cursor strictly greater than `p` grows by
exactly `n` and a cursor at or before `p` is unchanged; a viewport start
at or before `p` is unchanged; a viewport start strictly greater than `p`
is increased by `n` and then re-aligned to a display-row boundary of its
hard line: when the increased start sits at a hard line start (its
preceding byte is a newline) it stays increased by exactly `n`, but a
start on a wrapped continuation row of the line containing the insertion
is snapped back to a wrap boundary — viewport 160 stays 160 (not 165)
after inserting 5 at 100 into a 200-character line at 80 columns, while
viewport 100 / cursor 150 preceded by a newline become 105/155 after
inserting 5 at 50. -/
theorem c7_theorem (text : List Char) (rowChars : Nat)
    (panePos cursorPos p n : Int) (hrc : 0 < rowChars) (hn : 0 < n)
    (hp : 0 ≤ p) :
    ((p < cursorPos →
        (paneUpdateOtherPane text rowChars panePos cursorPos p n).2 =
          cursorPos + n) ∧
      (cursorPos ≤ p →
        (paneUpdateOtherPane text rowChars panePos cursorPos p n).2 =
          cursorPos)) ∧
    ((panePos ≤ p →
        (paneUpdateOtherPane text rowChars panePos cursorPos p n).1 =
          panePos) ∧
      (p < panePos → byteAt text ((panePos + n).toNat - 1) = 10 →
        (paneUpdateOtherPane text rowChars panePos cursorPos p n).1 =
          panePos + n)) ∧
    paneUpdateOtherPane (List.replicate 205 'x') 80 160 170 100 5 =
      (160, 175) ∧
    paneUpdateOtherPane
      (List.replicate 104 'x' ++ '\n' :: List.replicate 100 'y') 80
      100 150 50 5 = (105, 155) := by
  have hn0 : ¬ (n = 0) := by omega
  refine ⟨⟨?_, ?_⟩, ⟨?_, ?_⟩, by decide, by decide⟩
  · intro h
    simp only [paneUpdateOtherPane, if_neg hn0, paneAdjustPos]
    split_ifs <;> omega
  · intro h
    simp only [paneUpdateOtherPane, if_neg hn0, paneAdjustPos]
    split_ifs <;> omega
  · intro h
    have h1 : ¬ (p < panePos) := by omega
    simp only [paneUpdateOtherPane, if_neg hn0, if_neg h1]
  · intro hpp hnl
    have h1 : ¬ (panePos + n < p) := by omega
    have h2 : (0 : Int) ≤ panePos + n := by omega
    have h3 : ¬ ((panePos + n).toNat = 0 ∨ 0 = rowChars) := by
      rintro (h | h) <;> omega
    simp only [paneUpdateOtherPane, if_neg hn0, if_pos hpp, if_neg h1,
      paneUpdateStartPos, if_neg h3, if_pos hnl]
    omega

/-- C7, witness for the amended theorem: viewport 100 preceded by a
newline and cursor 150, insertion of 5 bytes at 50 — the code gives
105 and 155. -/
theorem c7_witness :
    (paneUpdateOtherPane
        (List.replicate 104 'x' ++ '\n' :: List.replicate 100 'y') 80
        100 150 50 5).1 = 105 ∧
    (paneUpdateOtherPane
        (List.replicate 104 'x' ++ '\n' :: List.replicate 100 'y') 80
        100 150 50 5).2 = 155 :=
  ⟨(c7_theorem (List.replicate 104 'x' ++ '\n' :: List.replicate 100 'y') 80
      100 150 50 5 (by decide) (by decide) (by decide)).2.1.2
      (by decide) (by decide),
   (c7_theorem (List.replicate 104 'x' ++ '\n' :: List.replicate 100 'y') 80
      100 150 50 5 (by decide) (by decide) (by decide)).1.1 (by decide)⟩

/-- C8: delete-previous-char at position 0 (writable buffer, no selection,
multiplier ≥ 1) changes nothing — buffer, cursor, mark ring, kill ring
and undo log are all as before — and shows "Beginning of buffer". -/
theorem c8_theorem (st : DelPrevSt) (mult : Nat) (h1 : st.readOnly = false)
    (h2 : st.selActive = false) (h3 : st.cursor = 0) (h4 : 1 ≤ mult) :
    cmdDelPrevChar st mult = { st with echo := some "Beginning of buffer" } := by
  match mult, h4 with
  | m + 1, _ =>
    simp [cmdDelPrevChar, h1, h2, h3, delPrevLoop]

/-- C8, witness: the concrete state `c8St` (buffer `"hi"`, cursor 0). -/
theorem c8_witness :
    cmdDelPrevChar c8St 1 = { c8St with echo := some "Beginning of buffer" } :=
  c8_theorem c8St 1 (by decide) (by decide) (by decide) (by decide)

/-- Helper: the open-file loop, started at any index, lists exactly the
non-skipped arguments with their "not the first argument" flag. -/
theorem mainOpenLoop_enumFrom (argv : List (List Char)) : ∀ i : Nat,
    mainOpenLoop (i + 1) argv =
      ((argv.enumFrom i).filter (fun p => isPathArg p.2)).map
        (fun p => (p.2, decide (0 < p.1))) := by
  induction argv with
  | nil => intro i; rfl
  | cons a rest ih =>
    intro i
    match a with
    | [] =>
      simpa [mainOpenLoop, List.enumFrom, isPathArg] using ih (i + 1)
    | c :: cs =>
      by_cases hc : c = '-'
      · simpa [mainOpenLoop, List.enumFrom, isPathArg, hc] using ih (i + 1)
      · have hd : decide (1 < i + 1) = decide (0 < i) :=
          decide_eq_decide.mpr (by omega)
        simp [mainOpenLoop, List.enumFrom, isPathArg, hc, hd, ih (i + 1)]

/-- C2, amended: empty and leading-dash arguments are ignored; an opened
path is displayed in the initial frame exactly when it is the very first
command-line argument, and every opened path at a later argument position
— no matter how many ignored or failing arguments precede it — is
displayed in an additional new frame. -/
theorem c2_theorem (argv : List (List Char)) :
    mainOpens argv =
      ((argv.enum.filter (fun p => isPathArg p.2)).map
        (fun p => (p.2, decide (0 < p.1)))) :=
  mainOpenLoop_enumFrom argv 0

/-- Helper: a position past the end never starts a match of a non-empty
pattern. -/
theorem checkMatch_of_len_le (caseSen : Bool) (buf pat : List Char) (p : Nat)
    (hne : pat ≠ []) (hp : buf.length ≤ p) :
    isCheckMatch caseSen buf pat p = false := by
  match pat, hne with
  | m :: ms, _ =>
    have hd : buf.drop p = [] := List.drop_eq_nil_of_le hp
    simp [isCheckMatch, hd, checkMatchList]

/-- Helper: if no positive position starts a match, the backward scanning
loop finds nothing (it never looks at position 0). -/
theorem scanBackward_eq_none (caseSen : Bool) (buf pat : List Char)
    (h : ∀ p, 0 < p → isCheckMatch caseSen buf pat p = false) :
    ∀ n, scanBackward caseSen buf pat n = none := by
  intro n
  induction n with
  | zero => rfl
  | succ k ih => simp [scanBackward, h (k + 1) (Nat.succ_pos k), ih]

/-- C9: the backward incremental-search scan never tests position 0, so
whenever the only occurrence of a (non-empty) pattern starts at position
0, a backward search from any start position fails, although the forward
search from 0 finds that occurrence immediately. -/
theorem c9_theorem (caseSen : Bool) (buf pat : List Char) (startPos : Int)
    (hne : pat ≠ []) (h0 : isCheckMatch caseSen buf pat 0 = true)
    (honly : ∀ p, 0 < p → p < buf.length →
      isCheckMatch caseSen buf pat p = false) :
    isMatchBackward caseSen buf pat startPos = none ∧
    isMatchForward caseSen buf pat 0 false = some 0 := by
  have hall : ∀ p, 0 < p → isCheckMatch caseSen buf pat p = false := by
    intro p hp
    by_cases hlt : p < buf.length
    · exact honly p hp hlt
    · exact checkMatch_of_len_le caseSen buf pat p hne (by omega)
  have hlen : 0 < buf.length := by
    by_contra hl
    have := checkMatch_of_len_le caseSen buf pat 0 hne (by omega)
    rw [h0] at this
    exact Bool.true_eq_false.mp this
  constructor
  · simp only [isMatchBackward]
    split_ifs <;>
      first
        | rfl
        | exact scanBackward_eq_none caseSen buf pat hall _
  · have hge : ¬ ((0 : Int) ≥ (buf.length : Int)) := by
      simp only [ge_iff_le, not_le]
      exact_mod_cast hlen
    obtain ⟨k, hk⟩ : ∃ k, buf.length = k + 1 := ⟨buf.length - 1, by omega⟩
    simp only [isMatchForward]
    rw [if_neg (by decide), if_neg (by decide), if_neg hge]
    simp only [scanForward, Int.toNat_zero, Nat.sub_zero, hk]
    simp [scanForwardAux, h0]

/-- C9, witness: buffer `"ab"`, pattern `"ab"` — the only occurrence
starts at 0; the backward search from the end fails while the forward
search finds it. -/
theorem c9_witness :
    isMatchBackward false "ab".toList "ab".toList 2 = none ∧
    isMatchForward false "ab".toList "ab".toList 0 false = some 0 :=
  c9_theorem false "ab".toList "ab".toList 2 (by decide) (by decide)
    (by
      intro p h1 h2
      have hp : p = 1 := by
        have : "ab".toList.length = 2 := by decide
        omega
      subst hp
      decide)

/-- C10: `ED_BufferGetUTF8Len` is total with value in `1..4` for every
byte, returns 1 for continuation bytes `0x80..0xBF` and for the invalid
lead bytes `0xF8..0xFF`, and therefore every forward step strictly
advances the position, so forward traversals of a finite buffer
terminate. -/
theorem c10_theorem :
    (∀ b : Fin 256,
      (1 ≤ getUTF8Len b.val ∧ getUTF8Len b.val ≤ 4) ∧
      (128 ≤ b.val → b.val ≤ 191 → getUTF8Len b.val = 1) ∧
      (248 ≤ b.val → getUTF8Len b.val = 1)) ∧
    (∀ (buf : List Char) (pos : Nat), pos < stepForwardPos buf pos) := by
  constructor
  · intro b
    unfold getUTF8Len
    split_ifs <;> omega
  · intro buf pos
    have h : 1 ≤ getUTF8Len (byteAt buf pos) := by
      unfold getUTF8Len
      split_ifs <;> omega
    unfold stepForwardPos
    omega

/-- C10, witness: byte 0x80 (a continuation byte) and byte 0xF8 (an
invalid lead byte) both give length 1, byte 0xF0 gives 4, and a step from
position 0 moves strictly forward. -/
theorem c10_witness :
    getUTF8Len 128 = 1 ∧ getUTF8Len 248 = 1 ∧
    (1 ≤ getUTF8Len 240 ∧ getUTF8Len 240 ≤ 4) ∧
    0 < stepForwardPos [] 0 :=
  ⟨(c10_theorem.1 ⟨128, by decide⟩).2.1 (by decide) (by decide),
   (c10_theorem.1 ⟨248, by decide⟩).2.2 (by decide),
   (c10_theorem.1 ⟨240, by decide⟩).1,
   c10_theorem.2 [] 0⟩

/-- Helper: reading just past a list prefix. -/
theorem byteN_append_self : ∀ (l : List Nat) (x : Nat) (r : List Nat),
    byteN (l ++ x :: r) l.length = x
  | [], _, _ => rfl
  | _ :: t, x, r => byteN_append_self t x r

/-- Helper: one-step unfolding of `runKeys`. -/
theorem runKeys_cons (st : CmdState) (k : Key) (ks : List Key) :
    runKeys st (k :: ks) =
      match commandStep st k with
      | StepOut.cont st1 => runKeys st1 ks
      | r => r := rfl

/-- Helper: keys processed while the match stays in progress compose. -/
theorem runKeys_append (l1 : List Key) : ∀ (st st1 : CmdState) (l2 : List Key),
    runKeys st l1 = StepOut.cont st1 →
    runKeys st (l1 ++ l2) = runKeys st1 l2 := by
  induction l1 with
  | nil =>
    intro st st1 l2 h
    simp only [runKeys] at h
    cases h
    rfl
  | cons k ks ih =>
    intro st st1 l2 h
    cases hc : commandStep st k with
    | cont st2 =>
      have h1 : runKeys st (k :: ks) = runKeys st2 ks := by
        rw [runKeys_cons, hc]
      have h2 : runKeys st ((k :: ks) ++ l2) = runKeys st2 (ks ++ l2) := by
        rw [List.cons_append, runKeys_cons, hc]
      rw [h1] at h
      rw [h2]
      exact ih st2 st1 l2 h
    | insertChar m n =>
      have h1 : runKeys st (k :: ks) = StepOut.insertChar m n := by
        rw [runKeys_cons, hc]
      rw [h1] at h
      exact absurd h (by simp)
    | badNum =>
      have h1 : runKeys st (k :: ks) = StepOut.badNum := by
        rw [runKeys_cons, hc]
      rw [h1] at h
      exact absurd h (by simp)
    | matchKeys ks2 m n =>
      have h1 : runKeys st (k :: ks) = StepOut.matchKeys ks2 m n := by
        rw [runKeys_cons, hc]
      rw [h1] at h
      exact absurd h (by simp)

/-- Helper: a digit key while the multiplier is in progress (and below the
cap) accumulates decimally. -/
theorem commandStep_digit (st : CmdState) (d : Fin 10) (hIn : st.multIn = true)
    (hne : st.cmdStr ≠ []) (hd : st.multDigit < 5) :
    commandStep st (kDigit d) =
      StepOut.cont
        { cmdStr := st.cmdStr ++ [48 + d.val], mult := st.mult * 10 + d.val,
          multCmd := st.multCmd, multNeg := st.multNeg,
          multDigit := st.multDigit + 1, multIn := true,
          multLen := st.cmdStr.length + 1 } := by
  have hlt : d.val < 10 := d.isLt
  have hs1 : ¬ (48 + d.val = 0xff0d) := by omega
  have hs2 : ¬ (0x100 ≤ 48 + d.val) := by omega
  have hs3 : ¬ (65 ≤ 48 + d.val ∧ 48 + d.val ≤ 90) := by omega
  have hb : keyBytes (kDigit d) = [48 + d.val] := by
    simp [keyBytes, kDigit, hs1, hs2, lowerSym, hs3]
  have hc : keyChar (kDigit d) = 48 + d.val := by
    simp [keyChar, kDigit, hs1, hs2, lowerSym, hs3]
  have hlen : ¬ (st.cmdStr.length = 0) := fun h0 =>
    hne (List.length_eq_zero.mp h0)
  have hpos : 0 < st.cmdStr.length := List.length_pos.mpr hne
  have hgd : byteN (st.cmdStr ++ [48 + d.val]) st.cmdStr.length = 48 + d.val :=
    byteN_append_self st.cmdStr _ []
  have h45 : ¬ (48 + d.val = 0x2d) := by omega
  have hdig : 0x30 ≤ 48 + d.val ∧ 48 + d.val ≤ 0x39 := by omega
  have hover : ¬ (5 < st.multDigit + 1) := by omega
  have harr : 48 + d.val - 0x30 = d.val := by omega
  simp only [commandStep, hb, hc, hlen, if_neg hlen, if_false, hIn, hpos,
    true_and, and_true, if_true, hgd, h45, if_neg h45, hdig, if_pos hdig,
    List.take_left, hover, harr]
  simp [hIn, hpos, List.take_left, harr, hover]

/-- Helper: the sixth digit overflows the five-digit cap and aborts. -/
theorem commandStep_digit_over (st : CmdState) (d : Fin 10)
    (hIn : st.multIn = true) (hne : st.cmdStr ≠ []) (hd : 5 ≤ st.multDigit) :
    commandStep st (kDigit d) = StepOut.badNum := by
  have hlt : d.val < 10 := d.isLt
  have hs1 : ¬ (48 + d.val = 0xff0d) := by omega
  have hs2 : ¬ (0x100 ≤ 48 + d.val) := by omega
  have hs3 : ¬ (65 ≤ 48 + d.val ∧ 48 + d.val ≤ 90) := by omega
  have hb : keyBytes (kDigit d) = [48 + d.val] := by
    simp [keyBytes, kDigit, hs1, hs2, lowerSym, hs3]
  have hc : keyChar (kDigit d) = 48 + d.val := by
    simp [keyChar, kDigit, hs1, hs2, lowerSym, hs3]
  have hlen : ¬ (st.cmdStr.length = 0) := fun h0 =>
    hne (List.length_eq_zero.mp h0)
  have hpos : 0 < st.cmdStr.length := List.length_pos.mpr hne
  have hgd : byteN (st.cmdStr ++ [48 + d.val]) st.cmdStr.length = 48 + d.val :=
    byteN_append_self st.cmdStr _ []
  have h45 : ¬ (48 + d.val = 0x2d) := by omega
  have hdig : 0x30 ≤ 48 + d.val ∧ 48 + d.val ≤ 0x39 := by omega
  have hover : 5 < st.multDigit + 1 := by omega
  simp only [commandStep, hb, hc, hlen, if_neg hlen]
  simp [hIn, hpos, hgd, h45, hdig, hover]

/-- Helper: a digit run while the multiplier is in progress accumulates
its decimal value, keeping sign and mode flags. -/
theorem runKeys_digits : ∀ (ds : List (Fin 10)) (st : CmdState),
    st.multIn = true → st.cmdStr ≠ [] → st.multDigit + ds.length ≤ 5 →
    st.multLen = st.cmdStr.length →
    runKeys st (ds.map kDigit) =
      StepOut.cont
        { cmdStr := st.cmdStr ++ ds.map (fun d => 48 + d.val),
          mult := ds.foldl (fun a d => a * 10 + d.val) st.mult,
          multCmd := st.multCmd, multNeg := st.multNeg,
          multDigit := st.multDigit + ds.length, multIn := true,
          multLen := st.cmdStr.length + ds.length } := by
  intro ds
  induction ds with
  | nil =>
    intro st hIn hne hcap hml
    simp only [List.map_nil, List.length_nil, runKeys, List.append_nil,
      List.foldl_nil, Nat.add_zero]
    rw [← hIn, ← hml]
  | cons d rest ih =>
    intro st hIn hne hcap hml
    have hstep : runKeys st (List.map kDigit (d :: rest)) =
        runKeys
          { cmdStr := st.cmdStr ++ [48 + d.val], mult := st.mult * 10 + d.val,
            multCmd := st.multCmd, multNeg := st.multNeg,
            multDigit := st.multDigit + 1, multIn := true,
            multLen := st.cmdStr.length + 1 } (List.map kDigit rest) := by
      rw [List.map_cons, runKeys_cons,
        commandStep_digit st d hIn hne
          (by simp only [List.length_cons] at hcap; omega)]
    rw [hstep,
      ih { cmdStr := st.cmdStr ++ [48 + d.val], mult := st.mult * 10 + d.val,
           multCmd := st.multCmd, multNeg := st.multNeg,
           multDigit := st.multDigit + 1, multIn := true,
           multLen := st.cmdStr.length + 1 }
        rfl (by simp)
        (by simp only [List.length_cons] at hcap; simp only []; omega)
        (by simp)]
    simp only [List.map_cons, List.foldl_cons, List.length_cons,
      List.length_append, List.length_nil, List.append_assoc,
      List.cons_append, List.nil_append, StepOut.cont.injEq,
      CmdState.mk.injEq, true_and, and_true]
    omega

/-- Helper: a command-coded key (Control modifier) ends the multiplier and
is matched, alone, against the bindings, with the defaults filled in. -/
theorem commandStep_ctrlN (st : CmdState) (hIn : st.multIn = true)
    (hne : st.cmdStr ≠ []) (hml : st.multLen = st.cmdStr.length) :
    commandStep st kCtrlN =
      StepOut.matchKeys [0x16, 0x6e]
        (if st.multDigit = 0 then (if st.multNeg then 1 else 4) else st.mult)
        st.multNeg := by
  have hb : keyBytes kCtrlN = [0x16, 0x6e] := by decide
  have hc : keyChar kCtrlN = 0x6e := by decide
  have hlen : ¬ (st.cmdStr.length = 0) := fun h0 =>
    hne (List.length_eq_zero.mp h0)
  have hpos : 0 < st.cmdStr.length := List.length_pos.mpr hne
  have hgd : byteN (st.cmdStr ++ [0x16, 0x6e]) st.cmdStr.length = 0x16 :=
    byteN_append_self st.cmdStr _ [0x6e]
  have hdrop : (st.cmdStr ++ [0x16, 0x6e]).drop st.cmdStr.length = [0x16, 0x6e] :=
    List.drop_left st.cmdStr _
  simp only [commandStep, hb, hc, hlen, if_neg hlen]
  simp [hIn, hpos, hgd, hml, hdrop]

/-- C5, counterexample: after `Meta+-` (negative multiplier in progress,
no digits yet) a further minus key does not flip the sign back: the parser
returns 1 — the minus is handed back as an ordinary character to insert
and the prefix is abandoned — instead of continuing with a positive
multiplier. -/
theorem c5_counterexample :
    runKeys initCmd [kMetaMinus, kMinus] = StepOut.insertChar 0 true ∧
    StepOut.insertChar 0 true ≠
      StepOut.cont ⟨[0x17, 0x2d, 0x2d], 0, true, false, 0, true, 3⟩ := by
  refine ⟨by decide, by decide⟩

/-- C5, amended: `Ctrl+U` starts a multiplier defaulting to 4 when no
digit follows; `Meta+-` starts a negative multiplier defaulting to 1;
`Meta+digit` starts a digit-accumulating multiplier; up to five subsequent
digits accumulate decimally; a sixth digit aborts with an error and no
command is invoked; a minus with no prior digits makes the sign negative
when it is not negative already — a second minus instead ends the prefix
and is handed back for insertion; and a non-digit key ends the prefix:
a command-coded key is matched, alone, against the bindings, a printable
key is handed back for insertion with the multiplier in force. -/
theorem c5_theorem (ds : List (Fin 10)) (h5 : ds.length ≤ 5)
    (ds6 : List (Fin 10)) (h6 : ds6.length = 6) :
    runKeys initCmd (kCtrlU :: (ds.map kDigit ++ [kCtrlN])) =
      StepOut.matchKeys [0x16, 0x6e]
        (if ds.length = 0 then 4 else digitsVal ds) false ∧
    runKeys initCmd (kMetaMinus :: (ds.map kDigit ++ [kCtrlN])) =
      StepOut.matchKeys [0x16, 0x6e]
        (if ds.length = 0 then 1 else digitsVal ds) true ∧
    (∀ d : Fin 10, runKeys initCmd [kMetaDigit d] =
      StepOut.cont ⟨[0x17, 48 + d.val], d.val, true, false, 1, true, 2⟩) ∧
    runKeys initCmd (kCtrlU :: ds6.map kDigit) = StepOut.badNum ∧
    runKeys initCmd [kCtrlU, kMinus, kCtrlN] =
      StepOut.matchKeys [0x16, 0x6e] 1 true ∧
    runKeys initCmd [kMetaMinus, kMinus] = StepOut.insertChar 0 true ∧
    runKeys initCmd [kCtrlU, kCharA] = StepOut.insertChar 4 false := by
  have hU : commandStep initCmd kCtrlU =
      StepOut.cont ⟨[0x16, 0x75], 0, true, false, 0, true, 2⟩ := by decide
  have hM : commandStep initCmd kMetaMinus =
      StepOut.cont ⟨[0x17, 0x2d], 0, true, true, 0, true, 2⟩ := by decide
  refine ⟨?_, ?_, by decide, ?_, by decide, by decide, by decide⟩
  · -- Ctrl+U, digits, Ctrl+N
    have hD := runKeys_digits ds ⟨[0x16, 0x75], 0, true, false, 0, true, 2⟩
      rfl (by decide) (by simpa using h5) rfl
    have hA : runKeys initCmd (kCtrlU :: ds.map kDigit) =
        StepOut.cont
          { cmdStr := [0x16, 0x75] ++ ds.map (fun d => 48 + d.val),
            mult := ds.foldl (fun a d => a * 10 + d.val) 0,
            multCmd := true, multNeg := false, multDigit := 0 + ds.length,
            multIn := true, multLen := 2 + ds.length } := by
      rw [runKeys_cons, hU]
      exact hD
    have hB := runKeys_append (kCtrlU :: ds.map kDigit) initCmd _ [kCtrlN] hA
    rw [show kCtrlU :: (ds.map kDigit ++ [kCtrlN]) =
        (kCtrlU :: ds.map kDigit) ++ [kCtrlN] from rfl, hB]
    rw [runKeys_cons, commandStep_ctrlN _ rfl (by simp) (by simp; omega)]
    simp [digitsVal]
  · -- Meta+minus, digits, Ctrl+N
    have hD := runKeys_digits ds ⟨[0x17, 0x2d], 0, true, true, 0, true, 2⟩
      rfl (by decide) (by simpa using h5) rfl
    have hA : runKeys initCmd (kMetaMinus :: ds.map kDigit) =
        StepOut.cont
          { cmdStr := [0x17, 0x2d] ++ ds.map (fun d => 48 + d.val),
            mult := ds.foldl (fun a d => a * 10 + d.val) 0,
            multCmd := true, multNeg := true, multDigit := 0 + ds.length,
            multIn := true, multLen := 2 + ds.length } := by
      rw [runKeys_cons, hM]
      exact hD
    have hB := runKeys_append (kMetaMinus :: ds.map kDigit) initCmd _ [kCtrlN] hA
    rw [show kMetaMinus :: (ds.map kDigit ++ [kCtrlN]) =
        (kMetaMinus :: ds.map kDigit) ++ [kCtrlN] from rfl, hB]
    rw [runKeys_cons, commandStep_ctrlN _ rfl (by simp) (by simp; omega)]
    simp [digitsVal]
  · -- Ctrl+U then six digits
    have htk : (ds6.take 5).length = 5 := by
      rw [List.length_take, h6]
      decide
    obtain ⟨d5, hd5⟩ : ∃ x, ds6.drop 5 = [x] := by
      rw [← List.length_eq_one]
      rw [List.length_drop, h6]
    have hsplit : ds6.map kDigit = (ds6.take 5).map kDigit ++ [kDigit d5] := by
      conv_lhs => rw [← List.take_append_drop 5 ds6]
      rw [List.map_append, hd5]
      rfl
    have hD := runKeys_digits (ds6.take 5) ⟨[0x16, 0x75], 0, true, false, 0, true, 2⟩
      rfl (by decide) (by rw [htk]) rfl
    have hA : runKeys initCmd (kCtrlU :: (ds6.take 5).map kDigit) =
        StepOut.cont
          { cmdStr := [0x16, 0x75] ++ (ds6.take 5).map (fun d => 48 + d.val),
            mult := (ds6.take 5).foldl (fun a d => a * 10 + d.val) 0,
            multCmd := true, multNeg := false,
            multDigit := 0 + (ds6.take 5).length,
            multIn := true, multLen := 2 + (ds6.take 5).length } := by
      rw [runKeys_cons, hU]
      exact hD
    have hB := runKeys_append (kCtrlU :: (ds6.take 5).map kDigit) initCmd _
      [kDigit d5] hA
    rw [show kCtrlU :: ds6.map kDigit =
        (kCtrlU :: (ds6.take 5).map kDigit) ++ [kDigit d5] by rw [hsplit]; rfl,
      hB]
    rw [runKeys_cons, commandStep_digit_over _ d5 rfl (by simp) (by rw [htk])]

/-- C5, witness for the amended theorem: digit run `9 9` (value 99 after
`Ctrl+U`, −99 after `Meta+-`) and the six-digit run `1 0 0 0 0 0`, which
aborts. -/
theorem c5_witness :
    runKeys initCmd (kCtrlU :: ([(9 : Fin 10), 9].map kDigit ++ [kCtrlN])) =
      StepOut.matchKeys [0x16, 0x6e] 99 false ∧
    runKeys initCmd (kMetaMinus :: ([(9 : Fin 10), 9].map kDigit ++ [kCtrlN])) =
      StepOut.matchKeys [0x16, 0x6e] 99 true ∧
    runKeys initCmd (kCtrlU :: [(1 : Fin 10), 0, 0, 0, 0, 0].map kDigit) =
      StepOut.badNum := by
  have h := c5_theorem [(9 : Fin 10), 9] (by decide)
    [(1 : Fin 10), 0, 0, 0, 0, 0] (by decide)
  refine ⟨?_, ?_, h.2.2.2.1⟩
  · have h1 := h.1
    rw [if_neg (by decide)] at h1
    simpa [digitsVal] using h1
  · have h2 := h.2.1
    rw [if_neg (by decide)] at h2
    simpa [digitsVal] using h2

end ScEmacs
